import Mathlib

/-!
# Message signer: nonce assignment and signing

A shallow embedding of `chain/messagesigner/messagesigner.go`:
`MessageSigner.nextNonce` and `MessageSigner.SignMessage`, together with the
external collaborators they call (datastore, message pool, wallet, CBOR
header codec), followed by the properties of the nonce sequence.

Conventions
* `uint64` values are natural numbers; the one arithmetic operation of the
  source, `val + 1`, is taken modulo `2 ^ 64`.
* Byte strings are lists of natural numbers below 256.
* A Go result pair `(value, error)` returned by the functions of this file is
  modelled as a record holding both components, where `err = none` is `nil`.
* Every function also returns the list of calls it made to its
  collaborators, in order, so that "is not called" can be stated.
-/

namespace Lotus

/-! ## Basic types -/

/-- A byte string. -/
abbrev Bytes := List Nat

/-- A datastore key, in its canonical string form. -/
abbrev Key := String

/-- An address, represented by the string `addr.String()` yields. -/
abbrev Address := String

/-- The error values: the sentinel `datastore.ErrNotFound`, any other base
error, and an error wrapping another one (`xerrors.Errorf("...: %w", err)`). -/
inductive Err where
  | ErrNotFound : Err
  | other : String → Err
  | wrap : String → Err → Err
deriving DecidableEq

/-- The test `xerrors.Is(err, datastore.ErrNotFound)`: the sentinel is looked
for along the chain of wrapped errors. -/
def Err.isNotFound : Err → Bool
  | .ErrNotFound => true
  | .other _ => false
  | .wrap _ inner => inner.isNotFound

/-- The limit of an unsigned 64-bit integer, `2 ^ 64`. -/
def uint64Size : Nat := 18446744073709551616

/-! ## CBOR headers -/

/-- The CBOR major type of unsigned integers, `cbg.MajUnsignedInt`. -/
def MajUnsignedInt : Nat := 0

/-- The `n` low bytes of `v`, most significant first
(`binary.BigEndian.PutUintN`). -/
def putUintBE : Nat → Nat → Bytes
  | 0, _ => []
  | n + 1, v => putUintBE n (v / 256) ++ [v % 256]

/-- The number a big-endian byte string denotes (`binary.BigEndian.UintN`). -/
def uintBE (bs : Bytes) : Nat :=
  bs.foldl (fun acc b => acc * 256 + b) 0

/-- Modelled from the spec: `cbg.CborEncodeMajorType` of the cbor-gen library,
which is not part of the sources. One byte carries the major type in its three
high bits and the width class in its five low bits: a value below 24 is held
in the low bits themselves, the classes 24, 25, 26 and 27 are followed by the
value in 1, 2, 4 and 8 bytes, big-endian. The shortest form is chosen. -/
def CborEncodeMajorType (t : Nat) (l : Nat) : Bytes :=
  if l < 24 then [t * 32 + l]
  else if l < 256 then (t * 32 + 24) :: putUintBE 1 l
  else if l < 65536 then (t * 32 + 25) :: putUintBE 2 l
  else if l < 4294967296 then (t * 32 + 26) :: putUintBE 4 l
  else (t * 32 + 27) :: putUintBE 8 l

/-- Reads the `n` bytes of a header's payload (`io.ReadAtLeast`); fails when
fewer are left. -/
def readPayload (maj n : Nat) (rest : Bytes) : Except Err (Nat × Nat) :=
  if rest.length < n then .error (.other "unexpected EOF")
  else .ok (maj, uintBE (rest.take n))

/-- Modelled from the spec: `cbg.CborReadHeader` of the cbor-gen library, which
is not part of the sources. It reads the leading descriptor byte, splits it
into major type (three high bits) and width class (five low bits) and reads
the value the class announces; it fails on an empty or truncated input and on
the classes 28 to 31. Bytes after the header are left unread, and a value
written in more bytes than it needs is read as well. The result is the pair
of major type and value. -/
def CborReadHeader (br : Bytes) : Except Err (Nat × Nat) :=
  match br with
  | [] => .error (.other "EOF")
  | first :: rest =>
    let maj := first / 32
    let low := first % 32
    if low < 24 then .ok (maj, low)
    else if low = 24 then readPayload maj 1 rest
    else if low = 25 then readPayload maj 2 rest
    else if low = 26 then readPayload maj 4 rest
    else if low = 27 then readPayload maj 8 rest
    else .error (.other "invalid header")

/-! ## Collaborators -/

/-- The persisted contents of a datastore. -/
abbrev Store := Key → Option Bytes

/-- Modelled from the spec: a datastore (`datastore.Batching` of the
go-datastore library, which is not part of the sources), "a generic
byte-key/byte-value durable store supporting `Get`, `Put`, and reporting a
distinguishable not-found condition": its persisted contents, and the
failures its backing storage answers reads and writes of a key with, each
by its message. Not-found is reported for a missing entry only, and a
rejected write leaves the contents as they were. -/
structure Datastore where
  values : Store
  getErr : Key → Option String
  putErr : Key → Option String

/-- The read `ds.Get(key)`: the bytes stored under the key, `ErrNotFound` when
there are none, or the failure of the storage. -/
def Datastore.Get (ds : Datastore) (key : Key) : Except Err Bytes :=
  match ds.getErr key with
  | some e => .error (.other e)
  | none =>
    match ds.values key with
    | none => .error .ErrNotFound
    | some bs => .ok bs

/-- The write `ds.Put(key, value)`: the error (if any) and the datastore
afterwards. -/
def Datastore.Put (ds : Datastore) (key : Key) (value : Bytes) : Option Err × Datastore :=
  match ds.putErr key with
  | some e => (some (.other e), ds)
  | none => (none, { ds with values := fun k => if k = key then some value else ds.values k })

/-- The datastore `namespace.Wrap(child, pfx)` gives: every key is looked up
in the child under the prefix. -/
structure NamespaceDatastore where
  pfx : Key
  child : Datastore

/-- The child key of a key of the wrapped datastore, `pfx.Child(key)`. -/
def NamespaceDatastore.convert (d : NamespaceDatastore) (key : Key) : Key :=
  d.pfx ++ key

/-- Read through the namespace wrapper. -/
def NamespaceDatastore.Get (d : NamespaceDatastore) (key : Key) : Except Err Bytes :=
  d.child.Get (d.convert key)

/-- Write through the namespace wrapper. -/
def NamespaceDatastore.Put (d : NamespaceDatastore) (key : Key) (value : Bytes) :
    Option Err × NamespaceDatastore :=
  let r := d.child.Put (d.convert key) value
  (r.1, { d with child := r.2 })

/-- The canonical key `datastore.KeyWithNamespaces(ns)`: the components joined
by slashes under the root. -/
def KeyWithNamespaces (ns : List String) : Key :=
  "/" ++ "/".intercalate ns

/-- The interface `mpoolAPI`: the nonce the message pool holds for an
address, a `uint64`, or an error. -/
structure mpoolAPI where
  GetNonce : Address → Except Err Nat

/-- A signature, as the bytes the wallet produced. -/
structure Signature where
  Data : Bytes
deriving DecidableEq

/-- Modelled from the spec: `wallet.Wallet` of `chain/wallet`, which is not
part of the sources, at its one operation
`Sign(account, digest bytes) -> signature | error`. -/
structure Wallet where
  Sign : Address → Bytes → Except Err Signature

/-- Modelled from the spec: `types.Message` of `chain/types`, which is not part
of the sources: the sender account, the nonce, and all remaining fields,
which the signer never looks at, as one component. -/
structure Message (ρ : Type) where
  From : Address
  Nonce : Nat
  Rest : ρ
deriving DecidableEq

/-- The composite `types.SignedMessage`. -/
structure SignedMessage (ρ : Type) where
  Message : Message ρ
  Signature : Signature
deriving DecidableEq

/-- A call to a collaborator. -/
inductive Call where
  | dsGet : Key → Call
  | dsPut : Key → Bytes → Call
  | mpoolGetNonce : Address → Call
  | walletSign : Address → Bytes → Call
deriving DecidableEq

/-! ## The message signer -/

/-- The constant `dsKeyActorNonce`. -/
def dsKeyActorNonce : String := "ActorNonce"

/-- The struct `MessageSigner`. -/
structure MessageSigner where
  wallet : Wallet
  mpool : mpoolAPI
  ds : NamespaceDatastore

/-- The constructor `newMessageSigner`: the datastore is wrapped under the key
`/message-signer/`, whose canonical form is `/message-signer`. -/
def newMessageSigner (wallet : Wallet) (mpool : mpoolAPI) (ds : Datastore) : MessageSigner :=
  { wallet := wallet, mpool := mpool, ds := { pfx := "/message-signer", child := ds } }

/-- The exported constructor `NewMessageSigner`, over the message pool. -/
def NewMessageSigner (wallet : Wallet) (mpool : mpoolAPI) (ds : Datastore) : MessageSigner :=
  newMessageSigner wallet mpool ds

/-- What `nextNonce` returns and leaves behind: the pair `(nonce, err)`, the
datastore afterwards and the calls made. -/
structure NonceResult where
  nonce : Nat
  err : Option Err
  ds : NamespaceDatastore
  calls : List Call

/-- The key the nonce of an address is kept under. -/
def addrNonceKey (addr : Address) : Key :=
  KeyWithNamespaces [dsKeyActorNonce, addr]

/-- The tail of `nextNonce`: the nonce is encoded, written to the datastore
and returned. An in-memory `bytes.Buffer` write never fails. -/
def MessageSigner.writeNonce (ms : MessageSigner) (addr : Address) (nonce : Nat)
    (calls : List Call) : NonceResult :=
  let buf := CborEncodeMajorType MajUnsignedInt nonce
  let r := ms.ds.Put (addrNonceKey addr) buf
  let calls := calls ++ [Call.dsPut (addrNonceKey addr) buf]
  match r.1 with
  | some e => ⟨0, some (.wrap "failed to write nonce to datastore" e), r.2, calls⟩
  | none => ⟨nonce, none, r.2, calls⟩

/-- The method `MessageSigner.nextNonce`. -/
def MessageSigner.nextNonce (ms : MessageSigner) (addr : Address) : NonceResult :=
  let key := addrNonceKey addr
  match ms.ds.Get key with
  | .error err =>
    if err.isNotFound then
      match ms.mpool.GetNonce addr with
      | .error e =>
        ⟨0, some (.wrap "failed to get nonce from mempool" e), ms.ds,
          [Call.dsGet key, Call.mpoolGetNonce addr]⟩
      | .ok nonce => ms.writeNonce addr nonce [Call.dsGet key, Call.mpoolGetNonce addr]
    else
      ⟨0, some (.wrap "failed to get nonce from datastore" err), ms.ds, [Call.dsGet key]⟩
  | .ok nonceBytes =>
    match CborReadHeader nonceBytes with
    | .error e =>
      ⟨0, some (.wrap "failed to parse nonce from datastore" e), ms.ds, [Call.dsGet key]⟩
    | .ok (maj, val) =>
      if maj ≠ MajUnsignedInt then
        ⟨0, some (.other "bad cbor type parsing nonce from datastore"), ms.ds, [Call.dsGet key]⟩
      else
        ms.writeNonce addr ((val + 1) % uint64Size) [Call.dsGet key]

/-- What `SignMessage` returns and leaves behind: the pair
`(signed message, err)`, the caller's message after the call, the datastore
afterwards and the calls made. -/
structure SignResult (ρ : Type) where
  val : Option (SignedMessage ρ)
  err : Option Err
  msg : Message ρ
  ds : NamespaceDatastore
  calls : List Call

/-- The method `MessageSigner.SignMessage`. The digest `msg.Cid().Bytes()`
belongs to `chain/types` and is taken as the parameter `Cid`. -/
def MessageSigner.SignMessage {ρ : Type} (Cid : Message ρ → Bytes) (ms : MessageSigner)
    (msg : Message ρ) : SignResult ρ :=
  let n := ms.nextNonce msg.From
  match n.err with
  | some err => ⟨none, some (.wrap "failed to create nonce" err), msg, n.ds, n.calls⟩
  | none =>
    let msg := { msg with Nonce := n.nonce }
    let calls := n.calls ++ [Call.walletSign msg.From (Cid msg)]
    match ms.wallet.Sign msg.From (Cid msg) with
    | .error err => ⟨none, some (.wrap "failed to sign message" err), msg, n.ds, calls⟩
    | .ok sig => ⟨some { Message := msg, Signature := sig }, none, msg, n.ds, calls⟩

/-- The persisted entry of an address: the bytes kept under its key. -/
def NamespaceDatastore.entry (d : NamespaceDatastore) (addr : Address) : Option Bytes :=
  d.child.values (d.convert (addrNonceKey addr))

/-! ## Sequences of calls -/

/-- The circumstances of one call: the collaborators the signer is created
with, and the failures the storage answers with at that time. -/
structure Env where
  wallet : Wallet
  mpool : mpoolAPI
  getErr : Key → Option String
  putErr : Key → Option String

/-- The signer `newMessageSigner` creates over the persisted contents `s`. -/
def Env.signer (e : Env) (s : Store) : MessageSigner :=
  newMessageSigner e.wallet e.mpool ⟨s, e.getErr, e.putErr⟩

/-- Sequential calls of `nextNonce` for one address. Every call is made by a
signer newly created over the contents the call before left behind, so a
restart of the process may lie between any two calls. -/
def nonceRun (addr : Address) : Store → List Env → List NonceResult
  | _, [] => []
  | s, e :: es =>
    let r := (e.signer s).nextNonce addr
    r :: nonceRun addr r.ds.child.values es

/-- Sequential calls of `SignMessage`, each by a signer newly created over the
contents the call before left behind. -/
def signRun {ρ : Type} (Cid : Message ρ → Bytes) :
    Store → List (Env × Message ρ) → List (SignResult ρ)
  | _, [] => []
  | s, c :: cs =>
    let r := (c.1.signer s).SignMessage Cid c.2
    r :: signRun Cid r.ds.child.values cs

/-- The nonces the successful calls of `nextNonce` returned, in order. -/
def assigned (rs : List NonceResult) : List Nat :=
  rs.filterMap fun r =>
    match r.err with
    | none => some r.nonce
    | some _ => none

/-- The nonces of the signed messages the successful calls of `SignMessage`
returned, in order. -/
def signed {ρ : Type} (rs : List (SignResult ρ)) : List Nat :=
  rs.filterMap fun r => r.val.map fun sm => sm.Message.Nonce

/-! ## Concurrent calls

`nextNonce` touches the shared datastore twice, at `ds.Get` and at `ds.Put`,
and asks the message pool in between when there is no entry. A call in
progress is a thread standing before one of these three calls; the threads
of a configuration share one signer and advance one call at a time, in the
order a schedule gives. -/

/-- A call of `nextNonce` in progress: before `ds.Get`, before
`mpool.GetNonce`, before `ds.Put` with the candidate nonce in hand, or
returned with `(nonce, err)`. -/
inductive Thread where
  | atGet : Address → Thread
  | atResolve : Address → Thread
  | atPut : Address → Nat → Thread
  | done : Nat → Option Err → Thread
deriving DecidableEq

/-- One thread advances by one call to a collaborator. -/
def MessageSigner.step (ms : MessageSigner) : Thread → MessageSigner × Thread
  | .atGet addr =>
    match ms.ds.Get (addrNonceKey addr) with
    | .error err =>
      if err.isNotFound then (ms, .atResolve addr)
      else (ms, .done 0 (some (.wrap "failed to get nonce from datastore" err)))
    | .ok nonceBytes =>
      match CborReadHeader nonceBytes with
      | .error e => (ms, .done 0 (some (.wrap "failed to parse nonce from datastore" e)))
      | .ok (maj, val) =>
        if maj ≠ MajUnsignedInt then
          (ms, .done 0 (some (.other "bad cbor type parsing nonce from datastore")))
        else (ms, .atPut addr ((val + 1) % uint64Size))
  | .atResolve addr =>
    match ms.mpool.GetNonce addr with
    | .error e => (ms, .done 0 (some (.wrap "failed to get nonce from mempool" e)))
    | .ok nonce => (ms, .atPut addr nonce)
  | .atPut addr nonce =>
    let r := ms.ds.Put (addrNonceKey addr) (CborEncodeMajorType MajUnsignedInt nonce)
    match r.1 with
    | some e =>
      ({ ms with ds := r.2 }, .done 0 (some (.wrap "failed to write nonce to datastore" e)))
    | none => ({ ms with ds := r.2 }, .done nonce none)
  | .done nonce err => (ms, .done nonce err)

/-- One thread advances by `k` steps on its own. -/
def MessageSigner.steps (ms : MessageSigner) (t : Thread) : Nat → MessageSigner × Thread
  | 0 => (ms, t)
  | k + 1 => (ms.step t).1.steps (ms.step t).2 k

/-- The shared signer and the calls in progress. -/
structure Config where
  ms : MessageSigner
  threads : List Thread

/-- The thread of index `i` advances by one step. -/
def Config.stepThread (c : Config) (i : Nat) : Config :=
  match c.threads[i]? with
  | none => c
  | some t =>
    let r := c.ms.step t
    ⟨r.1, c.threads.set i r.2⟩

/-- The threads advance in the order of the schedule. -/
def Config.exec (c : Config) (schedule : List Nat) : Config :=
  schedule.foldl Config.stepThread c

/-- The schedule that runs the `m` threads from index `k` on one after the
other, each from its `ds.Get` to its return. -/
def serialSchedule : Nat → Nat → List Nat
  | _, 0 => []
  | k, m + 1 => [k, k, k] ++ serialSchedule (k + 1) m

/-- The nonces of the threads that returned without error. -/
def returned (ts : List Thread) : List Nat :=
  ts.filterMap fun t =>
    match t with
    | .done nonce none => some nonce
    | _ => none

/-! ## Example inputs -/

/-- A wallet that signs: the signature is the digest itself. -/
def exWallet : Wallet := ⟨fun _ digest => .ok ⟨digest⟩⟩

/-- A wallet without the key. -/
def exWalletFailing : Wallet := ⟨fun _ _ => .error (.other "key not found")⟩

/-- A message pool that answers 5 for every address. -/
def exMpool : mpoolAPI := ⟨fun _ => .ok 5⟩

/-- A message pool that answers `2 ^ 64 - 1` for every address. -/
def exMpoolMax : mpoolAPI := ⟨fun _ => .ok 18446744073709551615⟩

/-- A message pool that fails. -/
def exMpoolFailing : mpoolAPI := ⟨fun _ => .error (.other "actor not found")⟩

/-- The contents with the one entry `bs` for the address `f01`. -/
def exStore (bs : Bytes) : Store :=
  fun k => if k = "/message-signer/ActorNonce/f01" then some bs else none

/-- A datastore without entries and without failures. -/
def exEmpty : Datastore := ⟨fun _ => none, fun _ => none, fun _ => none⟩

/-- A datastore without failures holding the entry `bs` for the address `f01`. -/
def exDatastore (bs : Bytes) : Datastore := ⟨exStore bs, fun _ => none, fun _ => none⟩

/-- A datastore holding the entry `bs` for `f01` that rejects every write. -/
def exReadOnly (bs : Bytes) : Datastore :=
  ⟨exStore bs, fun _ => none, fun _ => some "read-only file system"⟩

/-- A datastore whose reads fail. -/
def exUnreadable : Datastore :=
  ⟨fun _ => none, fun _ => some "input/output error", fun _ => none⟩

/-- A digest for the examples: the nonce and the payload. -/
def exCid (m : Message Nat) : Bytes := [m.Nonce, m.Rest]

/-- A message of the address `f01`, its nonce not yet assigned. -/
def exMsg : Message Nat := ⟨"f01", 0, 42⟩

/-- Circumstances without failures; the message pool answers 5. -/
def exEnv : Env := ⟨exWallet, exMpool, fun _ => none, fun _ => none⟩

/-- Circumstances in which the wallet fails. -/
def exEnvNoKey : Env := ⟨exWalletFailing, exMpool, fun _ => none, fun _ => none⟩

/-! ## Codec lemmas -/

theorem uintBE_append_singleton (bs : Bytes) (b : Nat) :
    uintBE (bs ++ [b]) = uintBE bs * 256 + b := by
  simp [uintBE, List.foldl_append]

theorem uintBE_putUintBE (n v : Nat) : uintBE (putUintBE n v) = v % 256 ^ n := by
  induction n generalizing v with
  | zero => simp [putUintBE, uintBE, Nat.mod_one]
  | succ n ih =>
    rw [putUintBE, uintBE_append_singleton, ih, pow_succ, Nat.mul_comm (256 ^ n) 256,
      Nat.mod_mul, Nat.add_comm, Nat.mul_comm]

theorem length_putUintBE (n v : Nat) : (putUintBE n v).length = n := by
  induction n generalizing v with
  | zero => rfl
  | succ n ih => simp [putUintBE, ih]

theorem readPayload_putUintBE (maj n v : Nat) (hv : v < 256 ^ n) :
    readPayload maj n (putUintBE n v) = .ok (maj, v) := by
  unfold readPayload
  have hlen := length_putUintBE n v
  rw [if_neg (by omega)]
  have : (putUintBE n v).take n = putUintBE n v := by
    rw [List.take_of_length_le (by omega)]
  rw [this, uintBE_putUintBE, Nat.mod_eq_of_lt hv]

theorem CborReadHeader_encode (v : Nat) :
    CborReadHeader (CborEncodeMajorType MajUnsignedInt v) = .ok (MajUnsignedInt, v % uint64Size) := by
  unfold CborEncodeMajorType MajUnsignedInt uint64Size
  by_cases h1 : v < 24
  · rw [if_pos h1]
    simp only [CborReadHeader, Nat.zero_mul, Nat.zero_add]
    rw [if_pos (by omega)]
    congr 2
    · omega
    · omega
  · rw [if_neg h1]
    by_cases h2 : v < 256
    · rw [if_pos h2]
      simp only [CborReadHeader, Nat.zero_mul, Nat.zero_add, Nat.reduceMod, Nat.reduceDiv,
        Nat.lt_irrefl, if_false, if_true]
      rw [readPayload_putUintBE _ _ _ (by omega)]
      congr 2
      omega
    · rw [if_neg h2]
      by_cases h3 : v < 65536
      · rw [if_pos h3]
        simp only [CborReadHeader, Nat.zero_mul, Nat.zero_add, Nat.reduceMod, Nat.reduceDiv,
          Nat.reduceLT, Nat.reduceEqDiff, if_false, if_true]
        rw [readPayload_putUintBE _ _ _ (by omega)]
        congr 2
        omega
      · rw [if_neg h3]
        by_cases h4 : v < 4294967296
        · rw [if_pos h4]
          simp only [CborReadHeader, Nat.zero_mul, Nat.zero_add, Nat.reduceMod, Nat.reduceDiv,
            Nat.reduceLT, Nat.reduceEqDiff, if_false, if_true]
          rw [readPayload_putUintBE _ _ _ (by omega)]
          congr 2
          omega
        · rw [if_neg h4]
          simp only [CborReadHeader, Nat.zero_mul, Nat.zero_add, Nat.reduceMod, Nat.reduceDiv,
            Nat.reduceLT, Nat.reduceEqDiff, if_false, if_true]
          unfold readPayload
          rw [if_neg (by rw [length_putUintBE]; omega)]
          rw [List.take_of_length_le (by rw [length_putUintBE]), uintBE_putUintBE]
          rfl

/-! ## One call of `nextNonce` -/

theorem Put_fst (d : NamespaceDatastore) (key : Key) (value : Bytes) :
    (d.Put key value).1 = (d.child.putErr (d.convert key)).map Err.other := by
  unfold NamespaceDatastore.Put Datastore.Put
  cases h : d.child.putErr (d.convert key) <;> simp

theorem Put_snd_of_err (d : NamespaceDatastore) (key : Key) (value : Bytes)
    (h : (d.Put key value).1 ≠ none) : (d.Put key value).2 = d := by
  rw [Put_fst] at h
  unfold NamespaceDatastore.Put Datastore.Put
  cases h' : d.child.putErr (d.convert key) with
  | none => rw [h'] at h; exact absurd rfl h
  | some e => simp

theorem Put_snd_of_ok (d : NamespaceDatastore) (key : Key) (value : Bytes)
    (h : (d.Put key value).1 = none) :
    (d.Put key value).2 =
      { d with child := { d.child with
          values := fun k => if k = d.convert key then some value else d.child.values k } } := by
  rw [Put_fst] at h
  unfold NamespaceDatastore.Put Datastore.Put
  cases h' : d.child.putErr (d.convert key) with
  | none => simp
  | some e => rw [h'] at h; exact absurd h (by simp)

theorem writeNonce_of_ok (ms : MessageSigner) (addr : Address) (nonce : Nat) (calls : List Call)
    (h : (ms.ds.Put (addrNonceKey addr) (CborEncodeMajorType MajUnsignedInt nonce)).1 = none) :
    ms.writeNonce addr nonce calls =
      ⟨nonce, none, (ms.ds.Put (addrNonceKey addr) (CborEncodeMajorType MajUnsignedInt nonce)).2,
        calls ++ [Call.dsPut (addrNonceKey addr) (CborEncodeMajorType MajUnsignedInt nonce)]⟩ := by
  simp only [MessageSigner.writeNonce, h]

theorem writeNonce_of_err (ms : MessageSigner) (addr : Address) (nonce : Nat) (calls : List Call)
    (e : Err)
    (h : (ms.ds.Put (addrNonceKey addr) (CborEncodeMajorType MajUnsignedInt nonce)).1 = some e) :
    ms.writeNonce addr nonce calls =
      ⟨0, some (.wrap "failed to write nonce to datastore" e), ms.ds,
        calls ++ [Call.dsPut (addrNonceKey addr) (CborEncodeMajorType MajUnsignedInt nonce)]⟩ := by
  have hds := Put_snd_of_err ms.ds (addrNonceKey addr)
    (CborEncodeMajorType MajUnsignedInt nonce) (by rw [h]; simp)
  simp only [MessageSigner.writeNonce, h, hds]

theorem entry_Put_of_ok (d : NamespaceDatastore) (addr : Address) (value : Bytes)
    (h : (d.Put (addrNonceKey addr) value).1 = none) :
    (d.Put (addrNonceKey addr) value).2.entry addr = some value := by
  rw [Put_snd_of_ok d _ _ h]
  simp [NamespaceDatastore.entry, NamespaceDatastore.convert]

/-- The candidate nonce `nextNonce` computes when the datastore has no entry. -/
theorem nextNonce_of_notFound (ms : MessageSigner) (addr : Address) (e : Err) (r : Nat)
    (hget : ms.ds.Get (addrNonceKey addr) = .error e) (hnf : e.isNotFound = true)
    (hres : ms.mpool.GetNonce addr = .ok r) :
    ms.nextNonce addr =
      ms.writeNonce addr r [Call.dsGet (addrNonceKey addr), Call.mpoolGetNonce addr] := by
  simp only [MessageSigner.nextNonce, hget, hnf, hres, if_true]

/-- The candidate nonce `nextNonce` computes from a well-formed entry. -/
theorem nextNonce_of_found (ms : MessageSigner) (addr : Address) (bs : Bytes) (val : Nat)
    (hget : ms.ds.Get (addrNonceKey addr) = .ok bs)
    (hdec : CborReadHeader bs = .ok (MajUnsignedInt, val)) :
    ms.nextNonce addr =
      ms.writeNonce addr ((val + 1) % uint64Size) [Call.dsGet (addrNonceKey addr)] := by
  simp only [MessageSigner.nextNonce, hget, hdec, ne_eq, not_true_eq_false, if_false]

theorem nextNonce_of_getErr (ms : MessageSigner) (addr : Address) (e : Err)
    (hget : ms.ds.Get (addrNonceKey addr) = .error e) (hnf : e.isNotFound = false) :
    ms.nextNonce addr =
      ⟨0, some (.wrap "failed to get nonce from datastore" e), ms.ds,
        [Call.dsGet (addrNonceKey addr)]⟩ := by
  simp [MessageSigner.nextNonce, hget, hnf]

theorem nextNonce_of_resolveErr (ms : MessageSigner) (addr : Address) (e e' : Err)
    (hget : ms.ds.Get (addrNonceKey addr) = .error e) (hnf : e.isNotFound = true)
    (hres : ms.mpool.GetNonce addr = .error e') :
    ms.nextNonce addr =
      ⟨0, some (.wrap "failed to get nonce from mempool" e'), ms.ds,
        [Call.dsGet (addrNonceKey addr), Call.mpoolGetNonce addr]⟩ := by
  simp only [MessageSigner.nextNonce, hget, hnf, hres, if_true]

theorem nextNonce_of_parseErr (ms : MessageSigner) (addr : Address) (bs : Bytes) (e : Err)
    (hget : ms.ds.Get (addrNonceKey addr) = .ok bs) (hdec : CborReadHeader bs = .error e) :
    ms.nextNonce addr =
      ⟨0, some (.wrap "failed to parse nonce from datastore" e), ms.ds,
        [Call.dsGet (addrNonceKey addr)]⟩ := by
  simp only [MessageSigner.nextNonce, hget, hdec]

theorem nextNonce_of_badType (ms : MessageSigner) (addr : Address) (bs : Bytes) (maj val : Nat)
    (hget : ms.ds.Get (addrNonceKey addr) = .ok bs) (hdec : CborReadHeader bs = .ok (maj, val))
    (hmaj : maj ≠ MajUnsignedInt) :
    ms.nextNonce addr =
      ⟨0, some (.other "bad cbor type parsing nonce from datastore"), ms.ds,
        [Call.dsGet (addrNonceKey addr)]⟩ := by
  simp only [MessageSigner.nextNonce, hget, hdec, ne_eq, hmaj, not_false_eq_true, if_true]

theorem writeNonce_of_errNe (ms : MessageSigner) (addr : Address) (nonce : Nat)
    (calls : List Call) (h : (ms.writeNonce addr nonce calls).err ≠ none) :
    (ms.writeNonce addr nonce calls).ds = ms.ds ∧ (ms.writeNonce addr nonce calls).nonce = 0 := by
  cases hp : (ms.ds.Put (addrNonceKey addr) (CborEncodeMajorType MajUnsignedInt nonce)).1 with
  | none => rw [writeNonce_of_ok ms addr nonce calls hp] at h; exact absurd rfl h
  | some e => rw [writeNonce_of_err ms addr nonce calls e hp]; exact ⟨rfl, rfl⟩

/-- Every error return of `nextNonce` leaves the datastore as it was and
returns the nonce 0. -/
theorem nextNonce_of_err (ms : MessageSigner) (addr : Address)
    (h : (ms.nextNonce addr).err ≠ none) :
    (ms.nextNonce addr).ds = ms.ds ∧ (ms.nextNonce addr).nonce = 0 := by
  cases hget : ms.ds.Get (addrNonceKey addr) with
  | error e =>
    cases hnf : e.isNotFound with
    | false => rw [nextNonce_of_getErr ms addr e hget hnf]; exact ⟨rfl, rfl⟩
    | true =>
      cases hres : ms.mpool.GetNonce addr with
      | error e' => rw [nextNonce_of_resolveErr ms addr e e' hget hnf hres]; exact ⟨rfl, rfl⟩
      | ok r =>
        rw [nextNonce_of_notFound ms addr e r hget hnf hres] at h ⊢
        exact writeNonce_of_errNe ms addr _ _ h
  | ok bs =>
    cases hdec : CborReadHeader bs with
    | error e => rw [nextNonce_of_parseErr ms addr bs e hget hdec]; exact ⟨rfl, rfl⟩
    | ok mv =>
      obtain ⟨maj, val⟩ := mv
      by_cases hmaj : maj = MajUnsignedInt
      · subst hmaj
        rw [nextNonce_of_found ms addr bs val hget hdec] at h ⊢
        exact writeNonce_of_errNe ms addr _ _ h
      · rw [nextNonce_of_badType ms addr bs maj val hget hdec hmaj]; exact ⟨rfl, rfl⟩

/-! ## One call of `SignMessage` -/

theorem SignMessage_of_nonceErr {ρ : Type} (Cid : Message ρ → Bytes) (ms : MessageSigner)
    (msg : Message ρ) (e : Err) (h : (ms.nextNonce msg.From).err = some e) :
    ms.SignMessage Cid msg =
      ⟨none, some (.wrap "failed to create nonce" e), msg, (ms.nextNonce msg.From).ds,
        (ms.nextNonce msg.From).calls⟩ := by
  simp only [MessageSigner.SignMessage, h]

theorem SignMessage_of_signErr {ρ : Type} (Cid : Message ρ → Bytes) (ms : MessageSigner)
    (msg : Message ρ) (e : Err) (h : (ms.nextNonce msg.From).err = none)
    (hs : ms.wallet.Sign msg.From (Cid { msg with Nonce := (ms.nextNonce msg.From).nonce })
      = .error e) :
    ms.SignMessage Cid msg =
      ⟨none, some (.wrap "failed to sign message" e),
        { msg with Nonce := (ms.nextNonce msg.From).nonce }, (ms.nextNonce msg.From).ds,
        (ms.nextNonce msg.From).calls ++
          [Call.walletSign msg.From (Cid { msg with Nonce := (ms.nextNonce msg.From).nonce })]⟩ := by
  simp only [MessageSigner.SignMessage, h, hs]

theorem SignMessage_of_ok {ρ : Type} (Cid : Message ρ → Bytes) (ms : MessageSigner)
    (msg : Message ρ) (sig : Signature) (h : (ms.nextNonce msg.From).err = none)
    (hs : ms.wallet.Sign msg.From (Cid { msg with Nonce := (ms.nextNonce msg.From).nonce })
      = .ok sig) :
    ms.SignMessage Cid msg =
      ⟨some ⟨{ msg with Nonce := (ms.nextNonce msg.From).nonce }, sig⟩, none,
        { msg with Nonce := (ms.nextNonce msg.From).nonce }, (ms.nextNonce msg.From).ds,
        (ms.nextNonce msg.From).calls ++
          [Call.walletSign msg.From (Cid { msg with Nonce := (ms.nextNonce msg.From).nonce })]⟩ := by
  simp only [MessageSigner.SignMessage, h, hs]

/-- The datastore `SignMessage` leaves behind is the one its call of
`nextNonce` left behind. -/
theorem SignMessage_ds {ρ : Type} (Cid : Message ρ → Bytes) (ms : MessageSigner)
    (msg : Message ρ) : (ms.SignMessage Cid msg).ds = (ms.nextNonce msg.From).ds := by
  cases h : (ms.nextNonce msg.From).err with
  | some e => rw [SignMessage_of_nonceErr Cid ms msg e h]
  | none =>
    cases hs : ms.wallet.Sign msg.From (Cid { msg with Nonce := (ms.nextNonce msg.From).nonce }) with
    | error e => rw [SignMessage_of_signErr Cid ms msg e h hs]
    | ok sig => rw [SignMessage_of_ok Cid ms msg sig h hs]

/-- A signed message comes from a successful `nextNonce` and a successful
`Sign` over the message with the nonce stamped. -/
theorem SignMessage_val {ρ : Type} (Cid : Message ρ → Bytes) (ms : MessageSigner)
    (msg : Message ρ) (sm : SignedMessage ρ) (h : (ms.SignMessage Cid msg).val = some sm) :
    (ms.nextNonce msg.From).err = none ∧
    sm.Message = { msg with Nonce := (ms.nextNonce msg.From).nonce } ∧
    ms.wallet.Sign msg.From (Cid { msg with Nonce := (ms.nextNonce msg.From).nonce })
      = .ok sm.Signature := by
  cases hn : (ms.nextNonce msg.From).err with
  | some e => rw [SignMessage_of_nonceErr Cid ms msg e hn] at h; exact absurd h (by simp)
  | none =>
    cases hs : ms.wallet.Sign msg.From (Cid { msg with Nonce := (ms.nextNonce msg.From).nonce }) with
    | error e => rw [SignMessage_of_signErr Cid ms msg e hn hs] at h; exact absurd h (by simp)
    | ok sig =>
      rw [SignMessage_of_ok Cid ms msg sig hn hs] at h
      simp only [Option.some.injEq] at h
      subst h
      exact ⟨rfl, rfl, rfl⟩

/-- The calls `nextNonce` makes never include the wallet. -/
theorem nextNonce_calls_no_sign (ms : MessageSigner) (addr : Address) (a : Address) (d : Bytes) :
    Call.walletSign a d ∉ (ms.nextNonce addr).calls := by
  have hw : ∀ nonce calls, Call.walletSign a d ∉ calls →
      Call.walletSign a d ∉ (ms.writeNonce addr nonce calls).calls := by
    intro nonce calls hc
    cases hp : (ms.ds.Put (addrNonceKey addr) (CborEncodeMajorType MajUnsignedInt nonce)).1 with
    | none => rw [writeNonce_of_ok ms addr nonce calls hp]; simpa using hc
    | some e => rw [writeNonce_of_err ms addr nonce calls e hp]; simpa using hc
  cases hget : ms.ds.Get (addrNonceKey addr) with
  | error e =>
    cases hnf : e.isNotFound with
    | false => rw [nextNonce_of_getErr ms addr e hget hnf]; simp
    | true =>
      cases hres : ms.mpool.GetNonce addr with
      | error e' => rw [nextNonce_of_resolveErr ms addr e e' hget hnf hres]; simp
      | ok r => rw [nextNonce_of_notFound ms addr e r hget hnf hres]; exact hw _ _ (by simp)
  | ok bs =>
    cases hdec : CborReadHeader bs with
    | error e => rw [nextNonce_of_parseErr ms addr bs e hget hdec]; simp
    | ok mv =>
      obtain ⟨maj, val⟩ := mv
      by_cases hmaj : maj = MajUnsignedInt
      · subst hmaj
        rw [nextNonce_of_found ms addr bs val hget hdec]; exact hw _ _ (by simp)
      · rw [nextNonce_of_badType ms addr bs maj val hget hdec hmaj]; simp

theorem Get_of_entry_none (d : NamespaceDatastore) (addr : Address)
    (hentry : d.entry addr = none)
    (hread : d.child.getErr (d.convert (addrNonceKey addr)) = none) :
    d.Get (addrNonceKey addr) = .error .ErrNotFound := by
  unfold NamespaceDatastore.entry at hentry
  simp only [NamespaceDatastore.Get, Datastore.Get, hread, hentry]

theorem Get_of_entry_some (d : NamespaceDatastore) (addr : Address) (bs : Bytes)
    (hentry : d.entry addr = some bs)
    (hread : d.child.getErr (d.convert (addrNonceKey addr)) = none) :
    d.Get (addrNonceKey addr) = .ok bs := by
  unfold NamespaceDatastore.entry at hentry
  simp only [NamespaceDatastore.Get, Datastore.Get, hread, hentry]

/-- The message the caller holds after `SignMessage` carries the nonce of
`nextNonce` whenever `nextNonce` succeeded. -/
theorem SignMessage_msg_of_nonceOk {ρ : Type} (Cid : Message ρ → Bytes) (ms : MessageSigner)
    (msg : Message ρ) (h : (ms.nextNonce msg.From).err = none) :
    (ms.SignMessage Cid msg).msg = { msg with Nonce := (ms.nextNonce msg.From).nonce } := by
  cases hs : ms.wallet.Sign msg.From (Cid { msg with Nonce := (ms.nextNonce msg.From).nonce }) with
  | error e => rw [SignMessage_of_signErr Cid ms msg e h hs]
  | ok sig => rw [SignMessage_of_ok Cid ms msg sig h hs]

/-! ## What a call leaves behind -/

theorem Put_snd_shape (d : NamespaceDatastore) (key : Key) (value : Bytes) :
    (d.Put key value).2 =
      { pfx := d.pfx,
        child := { values := (d.Put key value).2.child.values,
                   getErr := d.child.getErr, putErr := d.child.putErr } } := by
  unfold NamespaceDatastore.Put Datastore.Put
  cases h : d.child.putErr (d.convert key) <;> rfl

/-- A call of `nextNonce` changes nothing of the datastore but its contents. -/
theorem nextNonce_ds_shape (ms : MessageSigner) (addr : Address) :
    (ms.nextNonce addr).ds =
      { pfx := ms.ds.pfx,
        child := { values := (ms.nextNonce addr).ds.child.values,
                   getErr := ms.ds.child.getErr, putErr := ms.ds.child.putErr } } := by
  cases h : (ms.nextNonce addr).err with
  | some e => rw [(nextNonce_of_err ms addr (by rw [h]; simp)).1]
  | none =>
    have hw : ∀ nonce calls, (ms.writeNonce addr nonce calls).ds =
        { pfx := ms.ds.pfx,
          child := { values := (ms.writeNonce addr nonce calls).ds.child.values,
                     getErr := ms.ds.child.getErr, putErr := ms.ds.child.putErr } } := by
      intro nonce calls
      cases hp : (ms.ds.Put (addrNonceKey addr) (CborEncodeMajorType MajUnsignedInt nonce)).1 with
      | none =>
        rw [writeNonce_of_ok ms addr nonce calls hp]
        exact Put_snd_shape ms.ds _ _
      | some e => rw [writeNonce_of_err ms addr nonce calls e hp]
    cases hget : ms.ds.Get (addrNonceKey addr) with
    | error e =>
      cases hnf : e.isNotFound with
      | false => rw [nextNonce_of_getErr ms addr e hget hnf]
      | true =>
        cases hres : ms.mpool.GetNonce addr with
        | error e' => rw [nextNonce_of_resolveErr ms addr e e' hget hnf hres]
        | ok r => rw [nextNonce_of_notFound ms addr e r hget hnf hres]; exact hw _ _
    | ok bs =>
      cases hdec : CborReadHeader bs with
      | error e => rw [nextNonce_of_parseErr ms addr bs e hget hdec]
      | ok mv =>
        obtain ⟨maj, val⟩ := mv
        by_cases hmaj : maj = MajUnsignedInt
        · subst hmaj
          rw [nextNonce_of_found ms addr bs val hget hdec]; exact hw _ _
        · rw [nextNonce_of_badType ms addr bs maj val hget hdec hmaj]

theorem writeNonce_entry_of_ok (ms : MessageSigner) (addr : Address) (nonce : Nat)
    (calls : List Call) (h : (ms.writeNonce addr nonce calls).err = none) :
    (ms.writeNonce addr nonce calls).nonce = nonce ∧
    (ms.writeNonce addr nonce calls).ds.entry addr =
      some (CborEncodeMajorType MajUnsignedInt nonce) := by
  cases hp : (ms.ds.Put (addrNonceKey addr) (CborEncodeMajorType MajUnsignedInt nonce)).1 with
  | none =>
    rw [writeNonce_of_ok ms addr nonce calls hp]
    exact ⟨rfl, entry_Put_of_ok ms.ds addr _ hp⟩
  | some e => rw [writeNonce_of_err ms addr nonce calls e hp] at h; exact absurd h (by simp)

/-- After a successful `nextNonce` the entry of the address is the encoding
of the nonce returned. -/
theorem nextNonce_entry_of_ok (ms : MessageSigner) (addr : Address)
    (h : (ms.nextNonce addr).err = none) :
    (ms.nextNonce addr).ds.entry addr =
      some (CborEncodeMajorType MajUnsignedInt (ms.nextNonce addr).nonce) := by
  cases hget : ms.ds.Get (addrNonceKey addr) with
  | error e =>
    cases hnf : e.isNotFound with
    | false => rw [nextNonce_of_getErr ms addr e hget hnf] at h; exact absurd h (by simp)
    | true =>
      cases hres : ms.mpool.GetNonce addr with
      | error e' =>
        rw [nextNonce_of_resolveErr ms addr e e' hget hnf hres] at h; exact absurd h (by simp)
      | ok r =>
        rw [nextNonce_of_notFound ms addr e r hget hnf hres] at h ⊢
        rw [(writeNonce_entry_of_ok ms addr _ _ h).2, (writeNonce_entry_of_ok ms addr _ _ h).1]
  | ok bs =>
    cases hdec : CborReadHeader bs with
    | error e => rw [nextNonce_of_parseErr ms addr bs e hget hdec] at h; exact absurd h (by simp)
    | ok mv =>
      obtain ⟨maj, val⟩ := mv
      by_cases hmaj : maj = MajUnsignedInt
      · subst hmaj
        rw [nextNonce_of_found ms addr bs val hget hdec] at h ⊢
        rw [(writeNonce_entry_of_ok ms addr _ _ h).2, (writeNonce_entry_of_ok ms addr _ _ h).1]
      · rw [nextNonce_of_badType ms addr bs maj val hget hdec hmaj] at h
        exact absurd h (by simp)

/-- A successful `nextNonce` over an entry that encodes `p` returns the
successor of `p` modulo `2 ^ 64`. -/
theorem nextNonce_nonce_of_entry (ms : MessageSigner) (addr : Address) (p : Nat)
    (hentry : ms.ds.entry addr = some (CborEncodeMajorType MajUnsignedInt p))
    (h : (ms.nextNonce addr).err = none) :
    (ms.nextNonce addr).nonce = (p + 1) % uint64Size := by
  cases hread : ms.ds.child.getErr (ms.ds.convert (addrNonceKey addr)) with
  | some m =>
    have hget : ms.ds.Get (addrNonceKey addr) = .error (.other m) := by
      simp only [NamespaceDatastore.Get, Datastore.Get, hread]
    rw [nextNonce_of_getErr ms addr _ hget rfl] at h
    exact absurd h (by simp)
  | none =>
    have hget := Get_of_entry_some ms.ds addr _ hentry hread
    have hnn := nextNonce_of_found ms addr _ _ hget (CborReadHeader_encode p)
    rw [hnn] at h ⊢
    rw [(writeNonce_entry_of_ok ms addr _ _ h).1]
    unfold uint64Size
    omega

/-- The entry a newly created signer sees for an address. -/
theorem signer_entry (e : Env) (s : Store) (addr : Address) :
    (e.signer s).ds.entry addr = s ("/message-signer" ++ addrNonceKey addr) := rfl

/-- The entry of the address in the contents a call of `nextNonce` by a newly
created signer leaves behind. -/
theorem signer_nextNonce_entry (e : Env) (s : Store) (addr : Address) :
    ((e.signer s).nextNonce addr).ds.child.values ("/message-signer" ++ addrNonceKey addr) =
      ((e.signer s).nextNonce addr).ds.entry addr := by
  have h := nextNonce_ds_shape (e.signer s) addr
  unfold NamespaceDatastore.entry NamespaceDatastore.convert
  rw [congrArg NamespaceDatastore.pfx h]
  rfl

/-! ## The properties of one call -/

/-- C1. When the datastore has no entry for the address, the message pool
answers `r` and the write succeeds, `nextNonce` returns exactly `r` without
error, the entry afterwards is the unsigned-integer encoding of `r`, and
`SignMessage` stamps the nonce `r` into a message of that address. -/
theorem nextNonce_first_use_takes_resolver_value (ms : MessageSigner) (addr : Address) (r : Nat)
    (hentry : ms.ds.entry addr = none)
    (hread : ms.ds.child.getErr (ms.ds.convert (addrNonceKey addr)) = none)
    (hres : ms.mpool.GetNonce addr = .ok r)
    (hput : (ms.ds.Put (addrNonceKey addr) (CborEncodeMajorType MajUnsignedInt r)).1 = none) :
    (ms.nextNonce addr).nonce = r ∧ (ms.nextNonce addr).err = none ∧
    (ms.nextNonce addr).ds.entry addr = some (CborEncodeMajorType MajUnsignedInt r) ∧
    ∀ (ρ : Type) (Cid : Message ρ → Bytes) (msg : Message ρ), msg.From = addr →
      (ms.SignMessage Cid msg).msg.Nonce = r ∧
      ∀ sm, (ms.SignMessage Cid msg).val = some sm → sm.Message.Nonce = r := by
  have hget := Get_of_entry_none ms.ds addr hentry hread
  have hnn : ms.nextNonce addr =
      ⟨r, none, (ms.ds.Put (addrNonceKey addr) (CborEncodeMajorType MajUnsignedInt r)).2,
        [Call.dsGet (addrNonceKey addr), Call.mpoolGetNonce addr] ++
          [Call.dsPut (addrNonceKey addr) (CborEncodeMajorType MajUnsignedInt r)]⟩ := by
    rw [nextNonce_of_notFound ms addr _ r hget rfl hres, writeNonce_of_ok ms addr r _ hput]
  refine ⟨by rw [hnn], by rw [hnn], ?_, ?_⟩
  · rw [hnn]
    exact entry_Put_of_ok ms.ds addr _ hput
  · intro ρ Cid msg hfrom
    subst hfrom
    have herr : (ms.nextNonce msg.From).err = none := by rw [hnn]
    have hn : (ms.nextNonce msg.From).nonce = r := by rw [hnn]
    refine ⟨?_, ?_⟩
    · rw [SignMessage_msg_of_nonceOk Cid ms msg herr, hn]
    · intro sm hsm
      rw [(SignMessage_val Cid ms msg sm hsm).2.1, hn]

/-- The scenario of C1: no entry for `f01`, the message pool answers 5. -/
theorem nextNonce_first_use_takes_resolver_value_witness :
    ((newMessageSigner exWallet exMpool exEmpty).nextNonce "f01").nonce = 5 ∧
    ((newMessageSigner exWallet exMpool exEmpty).nextNonce "f01").err = none ∧
    ((newMessageSigner exWallet exMpool exEmpty).nextNonce "f01").ds.entry "f01" =
      some (CborEncodeMajorType MajUnsignedInt 5) ∧
    ∀ (ρ : Type) (Cid : Message ρ → Bytes) (msg : Message ρ), msg.From = "f01" →
      ((newMessageSigner exWallet exMpool exEmpty).SignMessage Cid msg).msg.Nonce = 5 ∧
      ∀ sm, ((newMessageSigner exWallet exMpool exEmpty).SignMessage Cid msg).val = some sm →
        sm.Message.Nonce = 5 :=
  nextNonce_first_use_takes_resolver_value (newMessageSigner exWallet exMpool exEmpty) "f01" 5
    (by decide) (by decide) rfl (by decide)

/-- C2, amended. When the entry of the address is the encoding of the
`uint64` value `v`, the read does not fail and the write succeeds,
`nextNonce` returns `(v + 1) mod 2 ^ 64`, which is `v + 1` for every `v` below
`2 ^ 64 - 1`; the entry afterwards is the encoding of that value and the
message pool is not called. -/
theorem nextNonce_increments_stored_value (ms : MessageSigner) (addr : Address) (v : Nat)
    (hv : v < uint64Size)
    (hentry : ms.ds.entry addr = some (CborEncodeMajorType MajUnsignedInt v))
    (hread : ms.ds.child.getErr (ms.ds.convert (addrNonceKey addr)) = none)
    (hput : (ms.ds.Put (addrNonceKey addr)
      (CborEncodeMajorType MajUnsignedInt ((v + 1) % uint64Size))).1 = none) :
    (ms.nextNonce addr).nonce = (v + 1) % uint64Size ∧
    (v + 1 < uint64Size → (ms.nextNonce addr).nonce = v + 1) ∧
    (ms.nextNonce addr).err = none ∧
    (ms.nextNonce addr).ds.entry addr =
      some (CborEncodeMajorType MajUnsignedInt ((v + 1) % uint64Size)) ∧
    ∀ a, Call.mpoolGetNonce a ∉ (ms.nextNonce addr).calls := by
  have hget := Get_of_entry_some ms.ds addr _ hentry hread
  have hdec : CborReadHeader (CborEncodeMajorType MajUnsignedInt v) = .ok (MajUnsignedInt, v) := by
    rw [CborReadHeader_encode, Nat.mod_eq_of_lt hv]
  have hnn := nextNonce_of_found ms addr _ v hget hdec
  rw [writeNonce_of_ok ms addr _ _ hput] at hnn
  refine ⟨by rw [hnn], ?_, by rw [hnn], ?_, ?_⟩
  · intro hlt
    rw [hnn]
    exact Nat.mod_eq_of_lt hlt
  · rw [hnn]
    exact entry_Put_of_ok ms.ds addr _ hput
  · intro a
    rw [hnn]
    simp

/-- An entry holding 7 is followed by the nonce 8. -/
theorem nextNonce_increments_stored_value_witness :
    ((newMessageSigner exWallet exMpool (exDatastore [7])).nextNonce "f01").nonce
      = (7 + 1) % uint64Size ∧
    (7 + 1 < uint64Size →
      ((newMessageSigner exWallet exMpool (exDatastore [7])).nextNonce "f01").nonce = 7 + 1) ∧
    ((newMessageSigner exWallet exMpool (exDatastore [7])).nextNonce "f01").err = none ∧
    ((newMessageSigner exWallet exMpool (exDatastore [7])).nextNonce "f01").ds.entry "f01" =
      some (CborEncodeMajorType MajUnsignedInt ((7 + 1) % uint64Size)) ∧
    ∀ a, Call.mpoolGetNonce a ∉
      ((newMessageSigner exWallet exMpool (exDatastore [7])).nextNonce "f01").calls :=
  nextNonce_increments_stored_value (newMessageSigner exWallet exMpool (exDatastore [7])) "f01" 7
    (by decide) (by decide) (by decide) (by decide)

/-- C2 as stated fails at `v = 2 ^ 64 - 1`: the entry is the encoding of `v`,
the call succeeds, and the nonce returned is 0, not `v + 1`. -/
theorem nextNonce_stored_max_wraps_to_zero :
    (newMessageSigner exWallet exMpool
      (exDatastore (CborEncodeMajorType MajUnsignedInt 18446744073709551615))).ds.entry "f01"
      = some (CborEncodeMajorType MajUnsignedInt 18446744073709551615) ∧
    ((newMessageSigner exWallet exMpool
      (exDatastore (CborEncodeMajorType MajUnsignedInt 18446744073709551615))).nextNonce "f01").err
      = none ∧
    ((newMessageSigner exWallet exMpool
      (exDatastore (CborEncodeMajorType MajUnsignedInt 18446744073709551615))).nextNonce "f01").nonce
      = 0 ∧
    ((newMessageSigner exWallet exMpool
      (exDatastore (CborEncodeMajorType MajUnsignedInt 18446744073709551615))).nextNonce "f01").nonce
      ≠ 18446744073709551615 + 1 := by
  decide

/-- C6. When the bytes stored for the address do not parse as a CBOR header,
or parse with a major type other than unsigned integer, or when the read
fails with an error that is not not-found, `nextNonce` returns an error and
the nonce 0, does not call the message pool and leaves the datastore as it
was. -/
theorem nextNonce_rejects_corrupt_entry (ms : MessageSigner) (addr : Address)
    (h : (∃ bs, ms.ds.Get (addrNonceKey addr) = .ok bs ∧
          ((∃ e, CborReadHeader bs = .error e) ∨
            ∃ maj val, CborReadHeader bs = .ok (maj, val) ∧ maj ≠ MajUnsignedInt)) ∨
        ∃ e, ms.ds.Get (addrNonceKey addr) = .error e ∧ e.isNotFound = false) :
    (ms.nextNonce addr).err ≠ none ∧ (ms.nextNonce addr).nonce = 0 ∧
    (∀ a, Call.mpoolGetNonce a ∉ (ms.nextNonce addr).calls) ∧
    (ms.nextNonce addr).ds = ms.ds := by
  rcases h with ⟨bs, hget, ⟨e, hdec⟩ | ⟨maj, val, hdec, hmaj⟩⟩ | ⟨e, hget, hnf⟩
  · rw [nextNonce_of_parseErr ms addr bs e hget hdec]
    simp
  · rw [nextNonce_of_badType ms addr bs maj val hget hdec hmaj]
    simp
  · rw [nextNonce_of_getErr ms addr e hget hnf]
    simp

/-- Three rejected reads: an entry whose header is a byte string (major type
2), an entry cut short after its descriptor byte, and a failing storage. -/
theorem nextNonce_rejects_corrupt_entry_witness :
    (((newMessageSigner exWallet exMpool (exDatastore [69, 1, 2, 3, 4, 5])).nextNonce "f01").err
        ≠ none ∧
      ((newMessageSigner exWallet exMpool (exDatastore [69, 1, 2, 3, 4, 5])).nextNonce "f01").nonce
        = 0 ∧
      (∀ a, Call.mpoolGetNonce a ∉
        ((newMessageSigner exWallet exMpool (exDatastore [69, 1, 2, 3, 4, 5])).nextNonce "f01").calls) ∧
      ((newMessageSigner exWallet exMpool (exDatastore [69, 1, 2, 3, 4, 5])).nextNonce "f01").ds
        = (newMessageSigner exWallet exMpool (exDatastore [69, 1, 2, 3, 4, 5])).ds) ∧
    ((newMessageSigner exWallet exMpool (exDatastore [25, 1])).nextNonce "f01").err ≠ none ∧
    ((newMessageSigner exWallet exMpool exUnreadable).nextNonce "f01").err ≠ none :=
  ⟨nextNonce_rejects_corrupt_entry (newMessageSigner exWallet exMpool
      (exDatastore [69, 1, 2, 3, 4, 5])) "f01"
      (Or.inl ⟨[69, 1, 2, 3, 4, 5], rfl, Or.inr ⟨2, 5, rfl, by decide⟩⟩),
    (nextNonce_rejects_corrupt_entry (newMessageSigner exWallet exMpool (exDatastore [25, 1])) "f01"
      (Or.inl ⟨[25, 1], rfl, Or.inl ⟨.other "unexpected EOF", rfl⟩⟩)).1,
    (nextNonce_rejects_corrupt_entry (newMessageSigner exWallet exMpool exUnreadable) "f01"
      (Or.inr ⟨.other "input/output error", rfl, rfl⟩)).1⟩

/-- C7. For every unsigned 64-bit value `v`, reading the CBOR header of
`CborEncodeMajorType(MajUnsignedInt, v)` succeeds with the major type unsigned
integer and the value `v`; and these are the bytes `nextNonce` writes: after
every successful call that returns `v`, the entry of the address reads back
as the unsigned integer `v`. -/
theorem CborReadHeader_CborEncodeMajorType (v : Nat) (hv : v < uint64Size) :
    CborReadHeader (CborEncodeMajorType MajUnsignedInt v) = .ok (MajUnsignedInt, v) ∧
    ∀ (ms : MessageSigner) (addr : Address),
      (ms.nextNonce addr).err = none → (ms.nextNonce addr).nonce = v →
      ∃ bs, (ms.nextNonce addr).ds.entry addr = some bs ∧
        CborReadHeader bs = .ok (MajUnsignedInt, v) := by
  have h : CborReadHeader (CborEncodeMajorType MajUnsignedInt v) = .ok (MajUnsignedInt, v) := by
    rw [CborReadHeader_encode, Nat.mod_eq_of_lt hv]
  refine ⟨h, ?_⟩
  intro ms addr herr hnonce
  refine ⟨CborEncodeMajorType MajUnsignedInt v, ?_, h⟩
  rw [nextNonce_entry_of_ok ms addr herr, hnonce]

/-- The round trip at 0, at 1, at the ends of every width class and at the
largest 64-bit value. -/
theorem CborReadHeader_CborEncodeMajorType_witness :
    CborReadHeader (CborEncodeMajorType MajUnsignedInt 0) = .ok (MajUnsignedInt, 0) ∧
    CborReadHeader (CborEncodeMajorType MajUnsignedInt 1) = .ok (MajUnsignedInt, 1) ∧
    CborReadHeader (CborEncodeMajorType MajUnsignedInt 23) = .ok (MajUnsignedInt, 23) ∧
    CborReadHeader (CborEncodeMajorType MajUnsignedInt 24) = .ok (MajUnsignedInt, 24) ∧
    CborReadHeader (CborEncodeMajorType MajUnsignedInt 255) = .ok (MajUnsignedInt, 255) ∧
    CborReadHeader (CborEncodeMajorType MajUnsignedInt 256) = .ok (MajUnsignedInt, 256) ∧
    CborReadHeader (CborEncodeMajorType MajUnsignedInt 65535) = .ok (MajUnsignedInt, 65535) ∧
    CborReadHeader (CborEncodeMajorType MajUnsignedInt 65536) = .ok (MajUnsignedInt, 65536) ∧
    CborReadHeader (CborEncodeMajorType MajUnsignedInt 4294967295)
      = .ok (MajUnsignedInt, 4294967295) ∧
    CborReadHeader (CborEncodeMajorType MajUnsignedInt 4294967296)
      = .ok (MajUnsignedInt, 4294967296) ∧
    18446744073709551615 < uint64Size ∧
    CborEncodeMajorType MajUnsignedInt 18446744073709551615
      = [27, 255, 255, 255, 255, 255, 255, 255, 255] ∧
    CborReadHeader (CborEncodeMajorType MajUnsignedInt 18446744073709551615)
      = .ok (MajUnsignedInt, 18446744073709551615) :=
  ⟨(CborReadHeader_CborEncodeMajorType 0 (by decide)).1,
    (CborReadHeader_CborEncodeMajorType 1 (by decide)).1,
    (CborReadHeader_CborEncodeMajorType 23 (by decide)).1,
    (CborReadHeader_CborEncodeMajorType 24 (by decide)).1,
    (CborReadHeader_CborEncodeMajorType 255 (by decide)).1,
    (CborReadHeader_CborEncodeMajorType 256 (by decide)).1,
    (CborReadHeader_CborEncodeMajorType 65535 (by decide)).1,
    (CborReadHeader_CborEncodeMajorType 65536 (by decide)).1,
    (CborReadHeader_CborEncodeMajorType 4294967295 (by decide)).1,
    (CborReadHeader_CborEncodeMajorType 4294967296 (by decide)).1,
    by decide, by decide,
    (CborReadHeader_CborEncodeMajorType 18446744073709551615 (by decide)).1⟩

/-- C8. Whenever `nextNonce` returns an error, the datastore afterwards is
the datastore before the call and the nonce returned is 0, so that the same
call made again from the state left behind gives the same result. -/
theorem nextNonce_error_leaves_store (ms : MessageSigner) (addr : Address)
    (h : (ms.nextNonce addr).err ≠ none) :
    (ms.nextNonce addr).ds = ms.ds ∧ (ms.nextNonce addr).nonce = 0 ∧
    ({ ms with ds := (ms.nextNonce addr).ds } : MessageSigner).nextNonce addr
      = ms.nextNonce addr := by
  have hds := (nextNonce_of_err ms addr h).1
  refine ⟨hds, (nextNonce_of_err ms addr h).2, ?_⟩
  rw [hds]

/-- A rejected write: the entry 7 stays, where the candidate was 8. -/
theorem nextNonce_error_leaves_store_witness :
    ((newMessageSigner exWallet exMpool (exReadOnly [7])).nextNonce "f01").err ≠ none ∧
    ((newMessageSigner exWallet exMpool (exReadOnly [7])).nextNonce "f01").ds
      = (newMessageSigner exWallet exMpool (exReadOnly [7])).ds ∧
    ((newMessageSigner exWallet exMpool (exReadOnly [7])).nextNonce "f01").nonce = 0 ∧
    ({ newMessageSigner exWallet exMpool (exReadOnly [7]) with
        ds := ((newMessageSigner exWallet exMpool (exReadOnly [7])).nextNonce "f01").ds }
      : MessageSigner).nextNonce "f01"
      = (newMessageSigner exWallet exMpool (exReadOnly [7])).nextNonce "f01" :=
  ⟨by decide,
    nextNonce_error_leaves_store (newMessageSigner exWallet exMpool (exReadOnly [7])) "f01"
      (by decide)⟩

/-- C9. When `SignMessage` returns a signed message, it returns no error,
the message inside equals the caller's message in the sender and in the
remaining fields, its nonce is the one `nextNonce` returned for the sender,
the caller's message has become that message, and the signature is the
wallet's answer for the sender and the digest of the message with the nonce
stamped. -/
theorem SignMessage_success_stamps_nonce_only {ρ : Type} (Cid : Message ρ → Bytes)
    (ms : MessageSigner) (msg : Message ρ) (sm : SignedMessage ρ)
    (h : (ms.SignMessage Cid msg).val = some sm) :
    (ms.SignMessage Cid msg).err = none ∧
    (ms.nextNonce msg.From).err = none ∧
    sm.Message.Nonce = (ms.nextNonce msg.From).nonce ∧
    sm.Message.From = msg.From ∧ sm.Message.Rest = msg.Rest ∧
    (ms.SignMessage Cid msg).msg = sm.Message ∧
    ms.wallet.Sign msg.From (Cid sm.Message) = .ok sm.Signature := by
  obtain ⟨hn, hm, hs⟩ := SignMessage_val Cid ms msg sm h
  refine ⟨?_, hn, by rw [hm], by rw [hm], by rw [hm], ?_, by rw [hm]; exact hs⟩
  · rw [SignMessage_of_ok Cid ms msg sm.Signature hn hs]
  · rw [SignMessage_msg_of_nonceOk Cid ms msg hn, hm]

/-- A first signature for `f01`: the nonce 5 is stamped and the payload 42
kept. -/
theorem SignMessage_success_stamps_nonce_only_witness :
    ((newMessageSigner exWallet exMpool exEmpty).SignMessage exCid exMsg).val
      = some ⟨⟨"f01", 5, 42⟩, ⟨[5, 42]⟩⟩ ∧
    ((newMessageSigner exWallet exMpool exEmpty).SignMessage exCid exMsg).err = none ∧
    ((newMessageSigner exWallet exMpool exEmpty).nextNonce exMsg.From).err = none ∧
    (5 : Nat) = ((newMessageSigner exWallet exMpool exEmpty).nextNonce exMsg.From).nonce ∧
    "f01" = exMsg.From ∧ (42 : Nat) = exMsg.Rest ∧
    ((newMessageSigner exWallet exMpool exEmpty).SignMessage exCid exMsg).msg = ⟨"f01", 5, 42⟩ ∧
    (newMessageSigner exWallet exMpool exEmpty).wallet.Sign exMsg.From (exCid ⟨"f01", 5, 42⟩)
      = .ok ⟨[5, 42]⟩ :=
  ⟨by decide,
    SignMessage_success_stamps_nonce_only exCid (newMessageSigner exWallet exMpool exEmpty) exMsg
      ⟨⟨"f01", 5, 42⟩, ⟨[5, 42]⟩⟩ (by decide)⟩

/-- C10. `SignMessage` returns either a signed message and no error or an
error and no signed message; and when `nextNonce` fails for the sender, it
returns an error and no signed message, does not call the wallet, and leaves
the caller's message, its nonce included, as it was. -/
theorem SignMessage_nonce_failure {ρ : Type} (Cid : Message ρ → Bytes) (ms : MessageSigner)
    (msg : Message ρ) :
    (((ms.SignMessage Cid msg).val ≠ none ∧ (ms.SignMessage Cid msg).err = none) ∨
      ((ms.SignMessage Cid msg).val = none ∧ (ms.SignMessage Cid msg).err ≠ none)) ∧
    ((ms.nextNonce msg.From).err ≠ none →
      (ms.SignMessage Cid msg).val = none ∧ (ms.SignMessage Cid msg).err ≠ none ∧
      (∀ a d, Call.walletSign a d ∉ (ms.SignMessage Cid msg).calls) ∧
      (ms.SignMessage Cid msg).msg = msg ∧ (ms.SignMessage Cid msg).msg.Nonce = msg.Nonce) := by
  cases hn : (ms.nextNonce msg.From).err with
  | some e =>
    rw [SignMessage_of_nonceErr Cid ms msg e hn]
    refine ⟨Or.inr ⟨rfl, by simp⟩, fun _ => ⟨rfl, by simp, ?_, rfl, rfl⟩⟩
    intro a d
    exact nextNonce_calls_no_sign ms msg.From a d
  | none =>
    refine ⟨?_, fun hne => absurd rfl hne⟩
    cases hs : ms.wallet.Sign msg.From (Cid { msg with Nonce := (ms.nextNonce msg.From).nonce }) with
    | error e =>
      rw [SignMessage_of_signErr Cid ms msg e hn hs]
      exact Or.inr ⟨rfl, by simp⟩
    | ok sig =>
      rw [SignMessage_of_ok Cid ms msg sig hn hs]
      exact Or.inl ⟨by simp, rfl⟩

/-- A failing message pool on first use: no signature, no call of the wallet,
the message untouched. -/
theorem SignMessage_nonce_failure_witness :
    ((newMessageSigner exWallet exMpoolFailing exEmpty).nextNonce exMsg.From).err ≠ none ∧
    ((newMessageSigner exWallet exMpoolFailing exEmpty).SignMessage exCid exMsg).val = none ∧
    ((newMessageSigner exWallet exMpoolFailing exEmpty).SignMessage exCid exMsg).err ≠ none ∧
    (∀ a d, Call.walletSign a d ∉
      ((newMessageSigner exWallet exMpoolFailing exEmpty).SignMessage exCid exMsg).calls) ∧
    ((newMessageSigner exWallet exMpoolFailing exEmpty).SignMessage exCid exMsg).msg = exMsg ∧
    ((newMessageSigner exWallet exMpoolFailing exEmpty).SignMessage exCid exMsg).msg.Nonce
      = exMsg.Nonce :=
  ⟨by decide,
    (SignMessage_nonce_failure exCid (newMessageSigner exWallet exMpoolFailing exEmpty) exMsg).2
      (by decide)⟩

/-! ## Sequences of calls -/

theorem assigned_cons_of_err (r : NonceResult) (rs : List NonceResult) (h : r.err ≠ none) :
    assigned (r :: rs) = assigned rs := by
  unfold assigned
  cases he : r.err with
  | none => exact absurd he h
  | some e => simp [List.filterMap_cons, he]

theorem assigned_cons_of_ok (r : NonceResult) (rs : List NonceResult) (h : r.err = none) :
    assigned (r :: rs) = r.nonce :: assigned rs := by
  unfold assigned
  simp [List.filterMap_cons, h]

/-- From contents whose entry encodes `p`, the nonces of the successful calls
that follow ascend from `p`, as long as none of them but the last is
`2 ^ 64 - 1`. -/
theorem nonceRun_chain (addr : Address) (es : List Env) :
    ∀ (s : Store) (p : Nat),
      s ("/message-signer" ++ addrNonceKey addr) = some (CborEncodeMajorType MajUnsignedInt p) →
      (∀ n ∈ (p :: assigned (nonceRun addr s es)).dropLast, n + 1 < uint64Size) →
      List.Chain (· < ·) p (assigned (nonceRun addr s es)) := by
  induction es with
  | nil => intro s p _ _; exact List.Chain.nil
  | cons e es ih =>
    intro s p hs hw
    rw [nonceRun] at hw ⊢
    cases herr : ((e.signer s).nextNonce addr).err with
    | some err =>
      have hne : ((e.signer s).nextNonce addr).err ≠ none := by rw [herr]; simp
      rw [assigned_cons_of_err _ _ hne] at hw ⊢
      rw [(nextNonce_of_err (e.signer s) addr hne).1] at hw ⊢
      exact ih s p hs hw
    | none =>
      rw [assigned_cons_of_ok _ _ herr] at hw ⊢
      have hn := nextNonce_nonce_of_entry (e.signer s) addr p hs herr
      have hp : p + 1 < uint64Size := hw p (by simp [List.dropLast])
      have hlt : p < ((e.signer s).nextNonce addr).nonce := by
        rw [hn, Nat.mod_eq_of_lt hp]; exact Nat.lt_succ_self p
      refine List.Chain.cons hlt (ih _ _ ?_ ?_)
      · rw [signer_nextNonce_entry, nextNonce_entry_of_ok _ _ herr]
      · intro n hmem
        exact hw n (by rw [List.dropLast_cons₂]; exact List.mem_cons_of_mem _ hmem)

/-- The nonces of the successful calls of a run ascend, as long as none of
them but the last is `2 ^ 64 - 1`. -/
theorem nonceRun_sorted (addr : Address) (es : List Env) :
    ∀ (s : Store),
      (∀ n ∈ (assigned (nonceRun addr s es)).dropLast, n + 1 < uint64Size) →
      (assigned (nonceRun addr s es)).Sorted (· < ·) := by
  induction es with
  | nil => intro s _; exact List.sorted_nil
  | cons e es ih =>
    intro s hw
    rw [nonceRun] at hw ⊢
    cases herr : ((e.signer s).nextNonce addr).err with
    | some err =>
      have hne : ((e.signer s).nextNonce addr).err ≠ none := by rw [herr]; simp
      rw [assigned_cons_of_err _ _ hne] at hw ⊢
      rw [(nextNonce_of_err (e.signer s) addr hne).1] at hw ⊢
      exact ih s hw
    | none =>
      rw [assigned_cons_of_ok _ _ herr] at hw ⊢
      have hc := nonceRun_chain addr es _ _
        (by rw [signer_nextNonce_entry, nextNonce_entry_of_ok _ _ herr]) hw
      exact (List.chain_iff_pairwise.mp hc)

/-- The nonces of the messages a run of `SignMessage` signs for one address
are among the nonces the calls of `nextNonce` inside returned, in order. -/
theorem signed_sublist_assigned {ρ : Type} (Cid : Message ρ → Bytes) (addr : Address)
    (cs : List (Env × Message ρ)) :
    ∀ (s : Store), (∀ c ∈ cs, c.2.From = addr) →
      List.Sublist (signed (signRun Cid s cs)) (assigned (nonceRun addr s (cs.map Prod.fst))) := by
  induction cs with
  | nil => intro s _; exact List.Sublist.slnil
  | cons c cs ih =>
    intro s hfrom
    have hc : c.2.From = addr := hfrom c (List.mem_cons_self _ _)
    have hrest : ∀ c' ∈ cs, c'.2.From = addr := fun c' h => hfrom c' (List.mem_cons_of_mem _ h)
    rw [signRun, List.map_cons, nonceRun]
    have hds := SignMessage_ds Cid (c.1.signer s) c.2
    rw [hc] at hds
    have ih' := ih ((c.1.signer s).nextNonce addr).ds.child.values hrest
    rw [← hds] at ih'
    cases hv : ((c.1.signer s).SignMessage Cid c.2).val with
    | none =>
      have hsig : signed (((c.1.signer s).SignMessage Cid c.2) ::
          signRun Cid ((c.1.signer s).SignMessage Cid c.2).ds.child.values cs) =
          signed (signRun Cid ((c.1.signer s).SignMessage Cid c.2).ds.child.values cs) := by
        unfold signed
        simp [List.filterMap_cons, hv]
      rw [hsig]
      cases herr : ((c.1.signer s).nextNonce addr).err with
      | some err =>
        rw [assigned_cons_of_err _ _ (by rw [herr]; simp), ← hds]
        exact ih'
      | none =>
        rw [assigned_cons_of_ok _ _ herr, ← hds]
        exact List.Sublist.cons _ ih'
    | some sm =>
      obtain ⟨hn, hm, _⟩ := SignMessage_val Cid (c.1.signer s) c.2 sm hv
      rw [hc] at hn hm
      have hsig : signed (((c.1.signer s).SignMessage Cid c.2) ::
          signRun Cid ((c.1.signer s).SignMessage Cid c.2).ds.child.values cs) =
          ((c.1.signer s).nextNonce addr).nonce ::
            signed (signRun Cid ((c.1.signer s).SignMessage Cid c.2).ds.child.values cs) := by
        unfold signed
        simp [List.filterMap_cons, hv, hm]
      rw [hsig, assigned_cons_of_ok _ _ hn, ← hds]
      exact List.Sublist.cons₂ _ ih'

/-- C3, amended. For any address, any persisted contents and any sequence of
sequential calls for that address, each made by a signer newly created over
the contents the call before left behind, under any message pool, wallet and
storage failures: the nonces the successful calls of `nextNonce` return, and
the nonces of the messages the successful calls of `SignMessage` sign, are
strictly increasing, as long as no nonce handed out other than the last is
`2 ^ 64 - 1`. -/
theorem sequential_nonces_strictly_increasing {ρ : Type} (Cid : Message ρ → Bytes)
    (addr : Address) (s : Store) (cs : List (Env × Message ρ))
    (hfrom : ∀ c ∈ cs, c.2.From = addr)
    (hwrap : ∀ n ∈ (assigned (nonceRun addr s (cs.map Prod.fst))).dropLast,
      n + 1 < uint64Size) :
    (assigned (nonceRun addr s (cs.map Prod.fst))).Sorted (· < ·) ∧
    (assigned (nonceRun addr s (cs.map Prod.fst))).Nodup ∧
    (signed (signRun Cid s cs)).Sorted (· < ·) ∧
    (signed (signRun Cid s cs)).Nodup := by
  have h := nonceRun_sorted addr (cs.map Prod.fst) s hwrap
  have h' : (signed (signRun Cid s cs)).Sorted (· < ·) :=
    List.Pairwise.sublist (signed_sublist_assigned Cid addr cs s hfrom) h
  exact ⟨h, h.nodup, h', h'.nodup⟩

/-- Three calls over an entry holding 7, the wallet failing in the second:
the nonces 8, 9 and 10 are handed out, 8 and 10 are signed. -/
theorem sequential_nonces_strictly_increasing_witness :
    assigned (nonceRun "f01" (exStore [7])
      ([(exEnv, exMsg), (exEnvNoKey, exMsg), (exEnv, exMsg)].map Prod.fst)) = [8, 9, 10] ∧
    signed (signRun exCid (exStore [7])
      [(exEnv, exMsg), (exEnvNoKey, exMsg), (exEnv, exMsg)]) = [8, 10] ∧
    (assigned (nonceRun "f01" (exStore [7])
      ([(exEnv, exMsg), (exEnvNoKey, exMsg), (exEnv, exMsg)].map Prod.fst))).Sorted (· < ·) ∧
    (assigned (nonceRun "f01" (exStore [7])
      ([(exEnv, exMsg), (exEnvNoKey, exMsg), (exEnv, exMsg)].map Prod.fst))).Nodup ∧
    (signed (signRun exCid (exStore [7])
      [(exEnv, exMsg), (exEnvNoKey, exMsg), (exEnv, exMsg)])).Sorted (· < ·) ∧
    (signed (signRun exCid (exStore [7])
      [(exEnv, exMsg), (exEnvNoKey, exMsg), (exEnv, exMsg)])).Nodup :=
  ⟨by decide, by decide,
    sequential_nonces_strictly_increasing exCid "f01" (exStore [7])
      [(exEnv, exMsg), (exEnvNoKey, exMsg), (exEnv, exMsg)] (by decide) (by decide)⟩

/-- C3 as stated fails when the message pool answers `2 ^ 64 - 1` on first
use: two successful calls of `SignMessage` in a row sign the nonces
`2 ^ 64 - 1` and 0. -/
theorem sequential_nonces_wrap_after_max :
    signed (signRun exCid (fun _ => none)
      [(⟨exWallet, exMpoolMax, fun _ => none, fun _ => none⟩, exMsg),
       (⟨exWallet, exMpoolMax, fun _ => none, fun _ => none⟩, exMsg)])
      = [18446744073709551615, 0] ∧
    ¬ (signed (signRun exCid (fun _ => none)
      [(⟨exWallet, exMpoolMax, fun _ => none, fun _ => none⟩, exMsg),
       (⟨exWallet, exMpoolMax, fun _ => none, fun _ => none⟩, exMsg)])).Sorted (· < ·) := by
  decide

/-- C5, amended. When a call of `SignMessage` has `nextNonce` persist and
return the nonce `p` and then fails because the wallet returns an error, no
signed message is returned, the entry of the sender stays the encoding of
`p`, and every later successful call of `SignMessage` for the same sender,
made next over the contents left behind, signs the nonce
`(p + 1) mod 2 ^ 64`: never `p` again, and `p + 1` for every `p` below
`2 ^ 64 - 1`. -/
theorem sign_failure_skips_nonce {ρ : Type} (Cid : Message ρ → Bytes) (e : Env) (s : Store)
    (msg : Message ρ) (p : Nat) (err : Err)
    (hn : ((e.signer s).nextNonce msg.From).err = none)
    (hp : ((e.signer s).nextNonce msg.From).nonce = p)
    (hs : (e.signer s).wallet.Sign msg.From (Cid { msg with Nonce := p }) = .error err) :
    ((e.signer s).SignMessage Cid msg).val = none ∧
    ((e.signer s).SignMessage Cid msg).err = some (.wrap "failed to sign message" err) ∧
    ((e.signer s).SignMessage Cid msg).ds.entry msg.From =
      some (CborEncodeMajorType MajUnsignedInt p) ∧
    ∀ (e2 : Env) (Cid2 : Message ρ → Bytes) (msg2 : Message ρ) (sm : SignedMessage ρ),
      msg2.From = msg.From →
      ((e2.signer ((e.signer s).SignMessage Cid msg).ds.child.values).SignMessage Cid2 msg2).val
        = some sm →
      sm.Message.Nonce = (p + 1) % uint64Size ∧ sm.Message.Nonce ≠ p ∧
      (p + 1 < uint64Size → sm.Message.Nonce = p + 1) := by
  subst hp
  have hentry := nextNonce_entry_of_ok (e.signer s) msg.From hn
  have hds := SignMessage_ds Cid (e.signer s) msg
  refine ⟨?_, ?_, ?_, ?_⟩
  · rw [SignMessage_of_signErr Cid (e.signer s) msg err hn hs]
  · rw [SignMessage_of_signErr Cid (e.signer s) msg err hn hs]
  · rw [hds]; exact hentry
  · intro e2 Cid2 msg2 sm hfrom hsm
    obtain ⟨hn2, hm2, _⟩ := SignMessage_val Cid2 _ msg2 sm hsm
    rw [hfrom, hds] at hn2 hm2
    have hentry2 : (e2.signer ((e.signer s).nextNonce msg.From).ds.child.values).ds.entry msg.From
        = some (CborEncodeMajorType MajUnsignedInt ((e.signer s).nextNonce msg.From).nonce) := by
      rw [signer_entry, signer_nextNonce_entry]; exact hentry
    have hnonce := nextNonce_nonce_of_entry _ msg.From _ hentry2 hn2
    have hsm : sm.Message.Nonce = (((e.signer s).nextNonce msg.From).nonce + 1) % uint64Size := by
      rw [hm2]; exact hnonce
    refine ⟨hsm, ?_, ?_⟩
    · rw [hsm]; unfold uint64Size; omega
    · intro hlt; rw [hsm]; exact Nat.mod_eq_of_lt hlt

/-- Over an entry holding 7, a call whose signature fails persists 8; the
next signed message carries 9. -/
theorem sign_failure_skips_nonce_witness :
    ((exEnvNoKey.signer (exStore [7])).SignMessage exCid exMsg).val = none ∧
    ((exEnvNoKey.signer (exStore [7])).SignMessage exCid exMsg).err
      = some (.wrap "failed to sign message" (.other "key not found")) ∧
    ((exEnvNoKey.signer (exStore [7])).SignMessage exCid exMsg).ds.entry exMsg.From =
      some (CborEncodeMajorType MajUnsignedInt 8) ∧
    ((exEnv.signer ((exEnvNoKey.signer (exStore [7])).SignMessage exCid
      exMsg).ds.child.values).SignMessage exCid exMsg).val = some ⟨⟨"f01", 9, 42⟩, ⟨[9, 42]⟩⟩ ∧
    (9 : Nat) = (8 + 1) % uint64Size ∧ (9 : Nat) ≠ 8 ∧ (8 + 1 < uint64Size → (9 : Nat) = 8 + 1) :=
  have h := sign_failure_skips_nonce exCid exEnvNoKey (exStore [7]) exMsg 8
    (.other "key not found") (by decide) (by decide) rfl
  ⟨h.1, h.2.1, h.2.2.1, by decide,
    h.2.2.2 exEnv exCid exMsg ⟨⟨"f01", 9, 42⟩, ⟨[9, 42]⟩⟩ rfl (by decide)⟩

/-- C5 as stated fails at `p = 2 ^ 64 - 1`: over an entry holding
`2 ^ 64 - 2`, a call whose signature fails persists `2 ^ 64 - 1`, and the next
successful call signs the nonce 0, not `p + 1`. -/
theorem sign_failure_at_max_wraps_to_zero :
    ((exEnvNoKey.signer (exStore (CborEncodeMajorType MajUnsignedInt
      18446744073709551614))).nextNonce exMsg.From).err = none ∧
    ((exEnvNoKey.signer (exStore (CborEncodeMajorType MajUnsignedInt
      18446744073709551614))).nextNonce exMsg.From).nonce = 18446744073709551615 ∧
    ((exEnvNoKey.signer (exStore (CborEncodeMajorType MajUnsignedInt
      18446744073709551614))).SignMessage exCid exMsg).err
      = some (.wrap "failed to sign message" (.other "key not found")) ∧
    ((exEnvNoKey.signer (exStore (CborEncodeMajorType MajUnsignedInt
      18446744073709551614))).SignMessage exCid exMsg).ds.entry exMsg.From
      = some (CborEncodeMajorType MajUnsignedInt 18446744073709551615) ∧
    ((exEnv.signer ((exEnvNoKey.signer (exStore (CborEncodeMajorType MajUnsignedInt
      18446744073709551614))).SignMessage exCid exMsg).ds.child.values).SignMessage exCid
      exMsg).val = some ⟨⟨"f01", 0, 42⟩, ⟨[0, 42]⟩⟩ ∧
    (0 : Nat) ≠ 18446744073709551615 + 1 := by
  decide

/-! ## Concurrent calls -/

/-- A thread run on its own from `ds.Get` for three steps has returned what
`nextNonce` returns, and the signer holds the datastore `nextNonce` leaves
behind. -/
theorem steps_atGet (ms : MessageSigner) (addr : Address) :
    ms.steps (.atGet addr) 3 =
      ({ ms with ds := (ms.nextNonce addr).ds },
        .done (ms.nextNonce addr).nonce (ms.nextNonce addr).err) := by
  have hw : ∀ nonce calls k, ms.steps (.atPut addr nonce) (k + 1) =
      ({ ms with ds := (ms.writeNonce addr nonce calls).ds },
        .done (ms.writeNonce addr nonce calls).nonce (ms.writeNonce addr nonce calls).err) := by
    intro nonce calls k
    cases hp : (ms.ds.Put (addrNonceKey addr) (CborEncodeMajorType MajUnsignedInt nonce)).1 with
    | none =>
      rw [writeNonce_of_ok ms addr nonce calls hp]
      induction k with
      | zero => simp [MessageSigner.steps, MessageSigner.step, hp]
      | succ k ih =>
        simp only [MessageSigner.steps, MessageSigner.step, hp] at ih ⊢
        exact ih
    | some e =>
      rw [writeNonce_of_err ms addr nonce calls e hp]
      have hds := Put_snd_of_err ms.ds (addrNonceKey addr)
        (CborEncodeMajorType MajUnsignedInt nonce) (by rw [hp]; simp)
      induction k with
      | zero => simp [MessageSigner.steps, MessageSigner.step, hp, hds]
      | succ k ih =>
        simp only [MessageSigner.steps, MessageSigner.step, hp, hds] at ih ⊢
        exact ih
  cases hget : ms.ds.Get (addrNonceKey addr) with
  | error e =>
    cases hnf : e.isNotFound with
    | false =>
      rw [nextNonce_of_getErr ms addr e hget hnf]
      simp [MessageSigner.steps, MessageSigner.step, hget, hnf]
    | true =>
      cases hres : ms.mpool.GetNonce addr with
      | error e' =>
        rw [nextNonce_of_resolveErr ms addr e e' hget hnf hres]
        simp [MessageSigner.steps, MessageSigner.step, hget, hnf, hres]
      | ok r =>
        rw [nextNonce_of_notFound ms addr e r hget hnf hres,
          ← hw r [Call.dsGet (addrNonceKey addr), Call.mpoolGetNonce addr] 0]
        simp [MessageSigner.steps, MessageSigner.step, hget, hnf, hres]
  | ok bs =>
    cases hdec : CborReadHeader bs with
    | error e =>
      rw [nextNonce_of_parseErr ms addr bs e hget hdec]
      simp [MessageSigner.steps, MessageSigner.step, hget, hdec]
    | ok mv =>
      obtain ⟨maj, val⟩ := mv
      by_cases hmaj : maj = MajUnsignedInt
      · subst hmaj
        rw [nextNonce_of_found ms addr bs val hget hdec,
          ← hw ((val + 1) % uint64Size) [Call.dsGet (addrNonceKey addr)] 1]
        simp [MessageSigner.steps, MessageSigner.step, hget, hdec]
      · rw [nextNonce_of_badType ms addr bs maj val hget hdec hmaj]
        simp [MessageSigner.steps, MessageSigner.step, hget, hdec, hmaj]

theorem stepThread_at (ms : MessageSigner) (pre post : List Thread) (t : Thread) :
    Config.stepThread ⟨ms, pre ++ t :: post⟩ pre.length =
      ⟨(ms.step t).1, pre ++ (ms.step t).2 :: post⟩ := by
  have hget : (pre ++ t :: post)[pre.length]? = some t := by
    rw [List.getElem?_append_right (Nat.le_refl _)]
    simp
  have hset : ∀ t', (pre ++ t :: post).set pre.length t' = pre ++ t' :: post := by
    intro t'
    rw [List.set_append_right _ _ (Nat.le_refl _)]
    simp
  simp only [Config.stepThread, hget, hset]

theorem exec_replicate (pre post : List Thread) (k : Nat) :
    ∀ (ms : MessageSigner) (t : Thread),
      Config.exec ⟨ms, pre ++ t :: post⟩ (List.replicate k pre.length) =
        ⟨(ms.steps t k).1, pre ++ (ms.steps t k).2 :: post⟩ := by
  induction k with
  | zero => intro ms t; rfl
  | succ k ih =>
    intro ms t
    rw [List.replicate_succ, Config.exec, List.foldl_cons, stepThread_at]
    exact ih _ _

theorem exec_append (c : Config) (l₁ l₂ : List Nat) :
    c.exec (l₁ ++ l₂) = (c.exec l₁).exec l₂ := by
  simp [Config.exec, List.foldl_append]

/-- A signer that went through `nextNonce` is the signer newly created over
the contents left behind. -/
theorem signer_after_nextNonce (e : Env) (s : Store) (addr : Address) :
    ({ e.signer s with ds := ((e.signer s).nextNonce addr).ds } : MessageSigner) =
      e.signer ((e.signer s).nextNonce addr).ds.child.values := by
  rw [nextNonce_ds_shape (e.signer s) addr]
  rfl

/-- Threads run one after the other return what as many sequential calls
return. -/
theorem exec_serialSchedule (e : Env) (addr : Address) (m : Nat) :
    ∀ (s : Store) (pre : List Thread), ∃ s',
      Config.exec ⟨e.signer s, pre ++ List.replicate m (.atGet addr)⟩
          (serialSchedule pre.length m) =
        ⟨e.signer s', pre ++ (nonceRun addr s (List.replicate m e)).map
          fun r => .done r.nonce r.err⟩ := by
  induction m with
  | zero => intro s pre; exact ⟨s, rfl⟩
  | succ m ih =>
    intro s pre
    obtain ⟨s', hs'⟩ := ih ((e.signer s).nextNonce addr).ds.child.values
      (pre ++ [.done ((e.signer s).nextNonce addr).nonce ((e.signer s).nextNonce addr).err])
    refine ⟨s', ?_⟩
    have h3 : [pre.length, pre.length, pre.length] = List.replicate 3 pre.length := rfl
    rw [List.replicate_succ, List.replicate_succ, serialSchedule, h3, exec_append,
      exec_replicate, steps_atGet, signer_after_nextNonce, nonceRun]
    simp only [List.length_append, List.length_singleton, List.append_assoc,
      List.singleton_append] at hs'
    rw [hs']
    simp

theorem returned_map_done (rs : List NonceResult) :
    returned (rs.map fun r => .done r.nonce r.err) = assigned rs := by
  induction rs with
  | nil => rfl
  | cons r rs ih =>
    unfold returned assigned at ih ⊢
    cases h : r.err <;> simp [List.filterMap_cons, h, ih]

/-- C4, amended. `nextNonce` holds no lock between its `ds.Get` and its
`ds.Put`. When `N` calls for one address run one after the other on a shared
signer, each from its `ds.Get` to its return before the next starts, the
threads return what `N` sequential calls return, and the nonces returned are
strictly increasing, hence distinct, as long as none of them but the last is
`2 ^ 64 - 1`. Calls that overlap are not covered. -/
theorem serial_calls_return_distinct_nonces (e : Env) (s : Store) (addr : Address) (N : Nat)
    (hwrap : ∀ n ∈ (returned (Config.exec ⟨e.signer s, List.replicate N (.atGet addr)⟩
      (serialSchedule 0 N)).threads).dropLast, n + 1 < uint64Size) :
    (Config.exec ⟨e.signer s, List.replicate N (.atGet addr)⟩ (serialSchedule 0 N)).threads =
      (nonceRun addr s (List.replicate N e)).map (fun r => .done r.nonce r.err) ∧
    (returned (Config.exec ⟨e.signer s, List.replicate N (.atGet addr)⟩
      (serialSchedule 0 N)).threads).Sorted (· < ·) ∧
    (returned (Config.exec ⟨e.signer s, List.replicate N (.atGet addr)⟩
      (serialSchedule 0 N)).threads).Nodup := by
  obtain ⟨s', hs'⟩ := exec_serialSchedule e addr N s []
  simp only [List.nil_append, List.length_nil] at hs'
  rw [hs'] at hwrap ⊢
  simp only [returned_map_done] at hwrap ⊢
  have h := nonceRun_sorted addr (List.replicate N e) s hwrap
  exact ⟨trivial, h, h.nodup⟩

/-- Three calls one after the other over an entry holding 7 return 8, 9
and 10. -/
theorem serial_calls_return_distinct_nonces_witness :
    returned (Config.exec ⟨exEnv.signer (exStore [7]), List.replicate 3 (.atGet "f01")⟩
      (serialSchedule 0 3)).threads = [8, 9, 10] ∧
    (Config.exec ⟨exEnv.signer (exStore [7]), List.replicate 3 (.atGet "f01")⟩
      (serialSchedule 0 3)).threads =
      (nonceRun "f01" (exStore [7]) (List.replicate 3 exEnv)).map
        (fun r => .done r.nonce r.err) ∧
    (returned (Config.exec ⟨exEnv.signer (exStore [7]), List.replicate 3 (.atGet "f01")⟩
      (serialSchedule 0 3)).threads).Sorted (· < ·) ∧
    (returned (Config.exec ⟨exEnv.signer (exStore [7]), List.replicate 3 (.atGet "f01")⟩
      (serialSchedule 0 3)).threads).Nodup :=
  ⟨by decide,
    serial_calls_return_distinct_nonces exEnv (exStore [7]) "f01" 3 (by decide)⟩

/-- C4 as stated fails: two calls for `f01` over an entry holding 7, the
second reading before the first has written, both persist and return the
nonce 8. -/
theorem overlapping_calls_return_same_nonce :
    (Config.exec ⟨exEnv.signer (exStore [7]), [.atGet "f01", .atGet "f01"]⟩
      [0, 1, 0, 1]).threads = [.done 8 none, .done 8 none] ∧
    (Config.exec ⟨exEnv.signer (exStore [7]), [.atGet "f01", .atGet "f01"]⟩
      [0, 1, 0, 1]).ms.ds.entry "f01" = some [8] ∧
    ¬ (returned (Config.exec ⟨exEnv.signer (exStore [7]), [.atGet "f01", .atGet "f01"]⟩
      [0, 1, 0, 1]).threads).Nodup := by
  decide

end Lotus
